import Mathlib

/-!
Verification development for the green-hydrogen credit system.

The repository ships the mobile front end (login screen, producer dashboard,
buyer dashboard, regulator dashboard).  The credit ledger and marketplace
engine behind the HTTP endpoints is not part of the shipped sources; its
behaviour is modelled here from the specification (each such definition's
doc comment starts with "Modelled from the spec:").  Front-end handlers
(handleLogin, handleMintCredit, executePurchase, fetchTransactions) are
embedded directly from the TypeScript sources.
-/

namespace GreenLedger

/- ## Front-end embedding (from the TypeScript sources) -/

/-- JavaScript String.prototype.toLowerCase, modelled on the character list
so that concrete logins evaluate inside the kernel. -/
def jsToLower (s : String) : String :=
  String.mk (s.data.map Char.toLower)

/-- JavaScript String.prototype.trim, modelled on the character list. -/
def jsTrim (s : String) : String :=
  String.mk (((s.data.dropWhile Char.isWhitespace).reverse.dropWhile
    Char.isWhitespace).reverse)

/-- Outcome of the login screen's handleLogin: either an error alert with no
network request and no storage write, or a login attempt posted to the
backend carrying the normalized username and the derived role. -/
inductive LoginOutcome where
  | alertMsg (msg : String)
  | attempt (username : String) (role : String)
deriving DecidableEq

/-- Embedded from the login screen's handleLogin: empty username or password
alerts; a password other than "1234" alerts; otherwise the lowercased trimmed
username selects the role producer / buyer / regulator, and any other
username alerts.  Only the attempt branch reaches the network call. -/
def handleLogin (username password : String) : LoginOutcome :=
  if username = "" ∨ password = "" then
    .alertMsg "Please enter both username and password"
  else if password ≠ "1234" then
    .alertMsg "Invalid password. Demo password is: 1234"
  else
    let lowercaseUsername := jsTrim (jsToLower username)
    if lowercaseUsername = "producer" then .attempt lowercaseUsername "producer"
    else if lowercaseUsername = "buyer" then .attempt lowercaseUsername "buyer"
    else if lowercaseUsername = "regulator" then .attempt lowercaseUsername "regulator"
    else .alertMsg "Invalid Username"

/-- Session state persisted in device-local AsyncStorage: none, or the stored
pair (userRole, username).  Embedded from handleLogin: the two setItem calls
run only in the attempt branch and only when the backend reports success. -/
def sessionAfterLogin (prev : Option (String × String)) (username password : String)
    (backendSuccess : Bool) : Option (String × String) :=
  match handleLogin username password with
  | .alertMsg _ => prev
  | .attempt u r => if backendSuccess then some (r, u) else prev

/-- Producer dashboard mint form state: the three controlled text inputs. -/
structure MintForm where
  batchId : String
  units : String
  productionDate : String
deriving DecidableEq

/-- Credit record as the producer dashboard displays it. -/
structure ProdCredit where
  id : String
  batch_id : String
  units : Rat
  production_date : String
  blockchain_hash : String
  is_retired : Bool
deriving DecidableEq

/-- Producer dashboard component state relevant to handleMintCredit: the form
fields and the displayed credit list. -/
structure ProducerState where
  form : MintForm
  credits : List ProdCredit
deriving DecidableEq

/-- Body of the POST mint-credit request the producer dashboard sends. -/
structure MintRequest where
  producer_id : String
  batch_id : String
  units : Rat
  production_date : String
deriving DecidableEq

/-- Observable effect of one handleMintCredit invocation: the alert shown,
the network request issued (none when validation refuses), and the component
state afterwards. -/
structure MintStep where
  alertMsg : Option String
  request : Option MintRequest
  stateAfter : ProducerState
deriving DecidableEq

/-- Embedded from the producer dashboard's handleMintCredit.  jsNumber models
JavaScript Number coercion of the units text (none encodes NaN).  Empty
fields alert and return; NaN or non-positive units alert and return; only
then is the request posted.  On backend success the form is cleared and the
credit list refetched (refreshed); on failure the state is unchanged. -/
def handleMintCredit (jsNumber : String → Option Rat) (producerId : String)
    (st : ProducerState) (netOk : Bool) (refreshed : List ProdCredit) : MintStep :=
  if st.form.batchId = "" ∨ st.form.units = "" ∨ st.form.productionDate = "" then
    { alertMsg := some "Please fill in all fields", request := none, stateAfter := st }
  else
    match jsNumber st.form.units with
    | none =>
        { alertMsg := some "Please enter a valid number of units", request := none,
          stateAfter := st }
    | some u =>
        if u ≤ 0 then
          { alertMsg := some "Please enter a valid number of units", request := none,
            stateAfter := st }
        else
          let req : MintRequest :=
            { producer_id := producerId, batch_id := st.form.batchId, units := u,
              production_date := st.form.productionDate }
          if netOk then
            { alertMsg := some "Credit minted successfully", request := some req,
              stateAfter := { form := { batchId := "", units := "", productionDate := "" },
                              credits := refreshed } }
          else
            { alertMsg := some "Failed to mint credit", request := some req, stateAfter := st }

/-- Credit record as the buyer dashboard receives it from available-credits. -/
structure FrontCredit where
  id : String
  batch_id : String
  producer_id : String
  producer_name : Option String
  units : Rat
  production_date : String
  blockchain_hash : String
  is_retired : Bool
deriving DecidableEq

/-- Body of the POST purchase-credit request the buyer dashboard sends. -/
structure PurchaseRequest where
  credit_id : String
  buyer_id : String
  units : Rat
deriving DecidableEq

/-- Embedded from the buyer dashboard's executePurchase: the request posted
for a chosen credit carries that credit's id, the stored buyer id, and the
credit's own units value. -/
def executePurchaseRequest (buyerId : String) (credit : FrontCredit) : PurchaseRequest :=
  { credit_id := credit.id, buyer_id := buyerId, units := credit.units }

/- ## Backend engine, modelled from the spec (absent from the shipped sources) -/

/-- Modelled from the spec: the error taxonomy of section 7. -/
inductive Err where
  | InvalidInput
  | NotFound
  | AlreadyRetired
  | AlreadySold
  | Busy
  | Corruption
deriving DecidableEq

/-- Modelled from the spec: the three transaction types. -/
inductive TxType where
  | mint
  | transfer
  | retire
deriving DecidableEq

/-- Numeric code of a transaction type, used by the hash encoding. -/
def TxType.code : TxType → Nat
  | .mint => 0
  | .transfer => 1
  | .retire => 2

/-- Modelled from the spec: a minted batch of hydrogen production. -/
structure Credit where
  id : Nat
  batch_id : String
  producer_id : String
  units : Rat
  production_date : String
  integrity_hash : Nat
  is_retired : Bool
  owner_id : String
deriving DecidableEq

/-- Modelled from the spec: an immutable ledger record. -/
structure Transaction where
  id : Nat
  credit_id : Nat
  from_user_id : String
  to_user_id : String
  units : Rat
  transaction_type : TxType
  prev_hash : Nat
  integrity_hash : Nat
  timestamp : Nat
deriving DecidableEq

/-- Modelled from the spec: the Hasher component.  A deterministic digest
over a string, built from character codes with the Cantor pairing map. -/
def hashStr (s : String) : Nat :=
  (s.data.map Char.toNat).foldr Nat.pair 1

/-- Deterministic code of a rational quantity for hashing. -/
def ratCode (q : Rat) : Nat :=
  Nat.pair q.num.natAbs (Nat.pair (if q.num < 0 then 1 else 0) q.den)

/-- Modelled from the spec: the credit integrity hash is computed over
(id, producer_id, batch_id, units, production_date). -/
def hashCredit (id : Nat) (producer batch : String) (units : Rat) (date : String) : Nat :=
  Nat.pair id (Nat.pair (hashStr producer)
    (Nat.pair (hashStr batch) (Nat.pair (ratCode units) (hashStr date))))

/-- Modelled from the spec: the transaction integrity hash is computed over
all fields including prev_hash. -/
def hashTxFields (id cid : Nat) (fromU toU : String) (units : Rat) (ty : TxType)
    (prev ts : Nat) : Nat :=
  Nat.pair id (Nat.pair cid (Nat.pair (hashStr fromU) (Nat.pair (hashStr toU)
    (Nat.pair (ratCode units) (Nat.pair ty.code (Nat.pair prev ts))))))

/-- Recomputed content hash of a stored transaction record. -/
def txHash (t : Transaction) : Nat :=
  hashTxFields t.id t.credit_id t.from_user_id t.to_user_id t.units
    t.transaction_type t.prev_hash t.timestamp

/-- Modelled from the spec: the fixed genesis value carried as prev_hash by
the first ledger entry. -/
def genesisHash : Nat := 0

/-- Modelled from the spec: TransactionLedger.Append.  Reads the tail hash,
stamps a timestamp that never moves backward (clamped to the previous
timestamp plus one on clock skew), hashes all fields including prev_hash,
and appends at the end.  The ledger is kept oldest-first. -/
def ledgerAppend (l : List Transaction) (ty : TxType) (cid : Nat)
    (fromU toU : String) (units : Rat) (now : Nat) : Transaction × List Transaction :=
  let prev := match l.getLast? with
    | none => genesisHash
    | some t => t.integrity_hash
  let ts := match l.getLast? with
    | none => now
    | some t => if now < t.timestamp then t.timestamp + 1 else now
  let tid := l.length
  let h := hashTxFields tid cid fromU toU units ty prev ts
  let tx : Transaction :=
    { id := tid, credit_id := cid, from_user_id := fromU, to_user_id := toU,
      units := units, transaction_type := ty, prev_hash := prev,
      integrity_hash := h, timestamp := ts }
  (tx, l ++ [tx])

/-- A chain segment is valid relative to an expected incoming hash when every
record's stored hash matches its recomputed hash and every prev_hash matches
the hash of its predecessor (or the incoming hash for the first record). -/
def chainFrom (prev : Nat) : List Transaction → Bool
  | [] => true
  | t :: rest => ((txHash t == t.integrity_hash) && (t.prev_hash == prev)) &&
      chainFrom t.integrity_hash rest

/-- Hash of the last record of a segment, or the incoming hash when empty. -/
def lastHash (prev : Nat) : List Transaction → Nat
  | [] => prev
  | t :: rest => lastHash t.integrity_hash rest

/-- Recursive worker of VerifyChain: index of the first broken link relative
to an expected incoming hash. -/
def verifyFrom (prev : Nat) : List Transaction → Option Nat
  | [] => none
  | t :: rest =>
      if (txHash t == t.integrity_hash) && (t.prev_hash == prev) then
        (verifyFrom t.integrity_hash rest).map (· + 1)
      else
        some 0

/-- Modelled from the spec: TransactionLedger.VerifyChain recomputes each
record's hash from its fields and checks prev_hash linkage end to end,
returning none on success and the index of the first break on failure. -/
def VerifyChain (l : List Transaction) : Option Nat :=
  verifyFrom genesisHash l

/-- Modelled from the spec: the shared mutable state, CreditStore plus
TransactionLedger plus the fresh-id counter. -/
structure EngineState where
  credits : List Credit
  ledger : List Transaction
  nextCreditId : Nat
deriving DecidableEq

/-- The empty initial state. -/
def initState : EngineState :=
  { credits := [], ledger := [], nextCreditId := 0 }

/-- Modelled from the spec: CreditStore.Get by credit id. -/
def findCredit (s : EngineState) (cid : Nat) : Option Credit :=
  s.credits.find? (fun c => c.id == cid)

/-- Modelled from the spec: MarketplaceEngine.MintCredit.  Fails with
InvalidInput if units are non-positive or the production date is unparsable
(dateOk models the date parser); otherwise creates the Credit with
owner_id = producer_id, is_retired = false, a fresh id, the credit integrity
hash, and atomically appends the mint transaction. -/
def Mint (dateOk : String → Bool) (s : EngineState) (producer batch : String)
    (units : Rat) (date : String) (now : Nat) :
    Except Err (Credit × Transaction × EngineState) :=
  if units ≤ 0 then .error .InvalidInput
  else if ¬ dateOk date then .error .InvalidInput
  else
    let cid := s.nextCreditId
    let c : Credit :=
      { id := cid, batch_id := batch, producer_id := producer, units := units,
        production_date := date, integrity_hash := hashCredit cid producer batch units date,
        is_retired := false, owner_id := producer }
    let res := ledgerAppend s.ledger .mint cid "" producer units now
    .ok (c, res.1,
      { credits := s.credits ++ [c], ledger := res.2, nextCreditId := cid + 1 })

/-- Modelled from the spec: MarketplaceEngine.PurchaseCredit under the
per-credit lock.  NotFound if absent, AlreadyRetired if retired, AlreadySold
if the owner is no longer the producer; otherwise appends the transfer
transaction and updates the owner. -/
def PurchaseCredit (s : EngineState) (cid : Nat) (buyer : String) (now : Nat) :
    Except Err (Transaction × EngineState) :=
  match findCredit s cid with
  | none => .error .NotFound
  | some c =>
      if c.is_retired then .error .AlreadyRetired
      else if c.owner_id ≠ c.producer_id then .error .AlreadySold
      else
        let res := ledgerAppend s.ledger .transfer cid c.owner_id buyer c.units now
        .ok (res.1,
          { s with
            credits := s.credits.map (fun x => if x.id = cid then { x with owner_id := buyer } else x),
            ledger := res.2 })

/-- Modelled from the spec: the purchase-credit endpoint checks the caller's
expected units against the credit's units and fails with InvalidInput on a
mismatch, guarding against stale client state. -/
def purchaseCreditEndpoint (s : EngineState) (cid : Nat) (buyer : String)
    (expectedUnits : Rat) (now : Nat) : Except Err (Transaction × EngineState) :=
  match findCredit s cid with
  | none => .error .NotFound
  | some c =>
      if expectedUnits ≠ c.units then .error .InvalidInput
      else PurchaseCredit s cid buyer now

/-- Modelled from the spec: MarketplaceEngine.RetireCredit under the
per-credit lock.  NotFound if absent, AlreadyRetired if already retired
(never silently ignored); otherwise appends the retire transaction and marks
the credit retired. -/
def RetireCredit (s : EngineState) (cid : Nat) (user : String) (now : Nat) :
    Except Err (Transaction × EngineState) :=
  match findCredit s cid with
  | none => .error .NotFound
  | some c =>
      if c.is_retired then .error .AlreadyRetired
      else
        let res := ledgerAppend s.ledger .retire cid c.owner_id user c.units now
        .ok (res.1,
          { s with
            credits := s.credits.map (fun x => if x.id = cid then { x with is_retired := true } else x),
            ledger := res.2 })

/-- Aggregate counts served to the regulator dashboard. -/
structure Overview where
  total_credits : Nat
  active_credits : Nat
  retired_credits : Nat
deriving DecidableEq

/-- Modelled from the spec: OverviewAggregator.ComputeOverview reads one
consistent snapshot of the CreditStore: total is the count of all credits,
retired the count of retired ones, active the difference. -/
def ComputeOverview (s : EngineState) : Overview :=
  let total := s.credits.length
  let retired := (s.credits.filter (fun c => c.is_retired)).length
  { total_credits := total, active_credits := total - retired, retired_credits := retired }

/-- Number of retire transactions for a given credit in a ledger. -/
def retireCount (l : List Transaction) (cid : Nat) : Nat :=
  l.countP (fun t => t.transaction_type == TxType.retire && t.credit_id == cid)

/-- Number of transfer transactions for a given credit in a ledger. -/
def transferCount (l : List Transaction) (cid : Nat) : Nat :=
  l.countP (fun t => t.transaction_type == TxType.transfer && t.credit_id == cid)

/-- One engine operation: a mint, purchase, or retire request with its
arrival time. -/
inductive Op where
  | mintOp (producer batch : String) (units : Rat) (date : String) (now : Nat)
  | purchaseOp (cid : Nat) (buyer : String) (now : Nat)
  | retireOp (cid : Nat) (user : String) (now : Nat)

/-- State reached after one operation; failed operations leave the state
unchanged (the engine never reports success without the ledger committed). -/
def applyOp (dateOk : String → Bool) (s : EngineState) : Op → EngineState
  | .mintOp p b u d now =>
      match Mint dateOk s p b u d now with
      | .ok r => r.2.2
      | .error _ => s
  | .purchaseOp cid b now =>
      match PurchaseCredit s cid b now with
      | .ok r => r.2
      | .error _ => s
  | .retireOp cid u now =>
      match RetireCredit s cid u now with
      | .ok r => r.2
      | .error _ => s

/-- State reached from the empty system by a sequence of operations. -/
def runOps (dateOk : String → Bool) (ops : List Op) : EngineState :=
  ops.foldl (applyOp dateOk) initState

/-- One of N concurrent purchase calls on the same credit: its buyer, its
arrival time, and whether it acquired the per-credit lock within the bounded
wait (a caller that did not acquire fails Busy without touching state). -/
structure PCall where
  buyer : String
  now : Nat
  acquired : Bool
deriving DecidableEq

/-- Modelled from the spec: the per-credit lock serializes the calls that
acquire it; a call that timed out fails Busy and touches nothing. -/
def purchaseStep (cid : Nat) (s : EngineState) (call : PCall) :
    Except Err Transaction × EngineState :=
  if call.acquired then
    match PurchaseCredit s cid call.buyer call.now with
    | .ok r => (.ok r.1, r.2)
    | .error e => (.error e, s)
  else (.error .Busy, s)

/-- Results and final state of N concurrent purchase calls on one credit, in
their serialization order. -/
def runPurchases (s : EngineState) (cid : Nat) : List PCall →
    List (Except Err Transaction) × EngineState
  | [] => ([], s)
  | c :: rest =>
      let step := purchaseStep cid s c
      let res := runPurchases step.2 cid rest
      (step.1 :: res.1, res.2)

/-- Modelled from the spec: the full ledger is served to the regulator
newest-first, the reverse of append order. -/
def ListAllNewestFirst (s : EngineState) : List Transaction :=
  s.ledger.reverse

/-- Embedded from the regulator dashboard's fetchTransactions: the received
list is re-sorted by timestamp alone, newest first, with the stable
JavaScript Array.sort (modelled by the stable insertion sort). -/
def fetchTransactionsSort (ts : List Transaction) : List Transaction :=
  List.insertionSort (fun a b => b.timestamp ≤ a.timestamp) ts

/- ## Helper lemmas -/

/-- Success test for a purchase result. -/
def exceptIsOk : Except Err Transaction → Bool
  | .ok _ => true
  | .error _ => false

/-- Concrete unsold credit used by the closed witness theorems. -/
def sampleCredit : Credit :=
  { id := 0, batch_id := "B1", producer_id := "producer", units := 100,
    production_date := "2024-01-01",
    integrity_hash := hashCredit 0 "producer" "B1" 100 "2024-01-01",
    is_retired := false, owner_id := "producer" }

/-- Concrete engine state holding one unsold credit, for witnesses. -/
def sampleState : EngineState :=
  { credits := [sampleCredit], ledger := [], nextCreditId := 1 }

/-- Three concurrent purchase calls on the sample credit: two acquire the
per-credit lock, one times out. -/
def sampleCalls : List PCall :=
  [{ buyer := "buyer", now := 5, acquired := true },
   { buyer := "buyer2", now := 6, acquired := true },
   { buyer := "buyer3", now := 7, acquired := false }]

/-- A tampered ledger record whose stored hash does not match its fields,
used to exercise VerifyChain break reporting. -/
def badTx : Transaction :=
  { id := 0, credit_id := 0, from_user_id := "", to_user_id := "", units := 0,
    transaction_type := .mint, prev_hash := 0, integrity_hash := 5, timestamp := 0 }

theorem chainFrom_append (prev : Nat) (l : List Transaction) (t : Transaction) :
    chainFrom prev (l ++ [t]) =
      (chainFrom prev l &&
        ((txHash t == t.integrity_hash) && (t.prev_hash == lastHash prev l))) := by
  induction l generalizing prev with
  | nil => simp [chainFrom, lastHash]
  | cons a l ih => simp [chainFrom, lastHash, ih, Bool.and_assoc]

theorem lastHash_eq_getLast (prev : Nat) (l : List Transaction) :
    lastHash prev l = ((l.getLast?).map Transaction.integrity_hash).getD prev := by
  induction l generalizing prev with
  | nil => rfl
  | cons a l ih =>
      cases l with
      | nil => simp [lastHash]
      | cons b l => simpa [lastHash, List.getLast?] using ih a.integrity_hash

theorem ledgerAppend_snd (l : List Transaction) (ty : TxType) (cid : Nat)
    (fromU toU : String) (units : Rat) (now : Nat) :
    (ledgerAppend l ty cid fromU toU units now).2 =
      l ++ [(ledgerAppend l ty cid fromU toU units now).1] := rfl

theorem ledgerAppend_chain (l : List Transaction) (ty : TxType) (cid : Nat)
    (fromU toU : String) (units : Rat) (now : Nat)
    (h : chainFrom genesisHash l = true) :
    chainFrom genesisHash (ledgerAppend l ty cid fromU toU units now).2 = true := by
  rw [ledgerAppend_snd, chainFrom_append, h, lastHash_eq_getLast]
  unfold ledgerAppend
  cases hl : l.getLast? <;> simp [hl, txHash]

theorem ledgerAppend_ts_ge (l : List Transaction) (ty : TxType) (cid : Nat)
    (fromU toU : String) (units : Rat) (now : Nat) (x : Transaction)
    (hx : l.getLast? = some x) :
    x.timestamp ≤ (ledgerAppend l ty cid fromU toU units now).1.timestamp := by
  simp only [ledgerAppend, hx]
  split <;> omega

theorem ledgerAppend_tsmono (l : List Transaction) (ty : TxType) (cid : Nat)
    (fromU toU : String) (units : Rat) (now : Nat)
    (h : List.Chain' (fun a b : Transaction => a.timestamp ≤ b.timestamp) l) :
    List.Chain' (fun a b : Transaction => a.timestamp ≤ b.timestamp)
      (ledgerAppend l ty cid fromU toU units now).2 := by
  rw [ledgerAppend_snd, List.chain'_append]
  refine ⟨h, List.chain'_singleton _, ?_⟩
  intro x hx y hy
  simp only [List.head?_cons, Option.mem_def, Option.some.injEq] at hy
  subst hy
  exact ledgerAppend_ts_ge l ty cid fromU toU units now x hx

theorem find?_map_update (l : List Credit) (cid : Nat) (f : Credit → Credit)
    (hf : ∀ x, (f x).id = x.id) :
    (l.map (fun x => if x.id = cid then f x else x)).find? (fun c => c.id == cid) =
      (l.find? (fun c => c.id == cid)).map f := by
  induction l with
  | nil => rfl
  | cons a l ih =>
      by_cases ha : a.id = cid
      · simp [List.find?_cons, ha, hf]
      · simp [List.find?_cons, ha, ih]

theorem retireCount_append_other (l : List Transaction) (t : Transaction) (cid : Nat)
    (h : t.transaction_type ≠ TxType.retire ∨ t.credit_id ≠ cid) :
    retireCount (l ++ [t]) cid = retireCount l cid := by
  unfold retireCount
  rw [List.countP_append]
  rcases h with h | h <;> simp [List.countP_cons, h]

theorem retireCount_append_retire (l : List Transaction) (t : Transaction) (cid : Nat)
    (hty : t.transaction_type = TxType.retire) (hcid : t.credit_id = cid) :
    retireCount (l ++ [t]) cid = retireCount l cid + 1 := by
  unfold retireCount
  rw [List.countP_append]
  simp [List.countP_cons, hty, hcid]

theorem retireCount_eq_zero (l : List Transaction) (cid : Nat)
    (h : ∀ t ∈ l, t.credit_id ≠ cid) : retireCount l cid = 0 := by
  unfold retireCount
  rw [List.countP_eq_zero]
  intro t ht
  simp [h t ht]

theorem transferCount_append_transfer (l : List Transaction) (t : Transaction) (cid : Nat)
    (hty : t.transaction_type = TxType.transfer) (hcid : t.credit_id = cid) :
    transferCount (l ++ [t]) cid = transferCount l cid + 1 := by
  unfold transferCount
  rw [List.countP_append]
  simp [List.countP_cons, hty, hcid]

theorem findCredit_mem (s : EngineState) (cid : Nat) (c : Credit)
    (h : findCredit s cid = some c) : c ∈ s.credits ∧ c.id = cid := by
  unfold findCredit at h
  refine ⟨List.mem_of_find?_eq_some h, ?_⟩
  have := List.find?_some h
  simpa using this

set_option maxHeartbeats 1000000 in
theorem verifyFrom_eq_none (prev : Nat) (l : List Transaction)
    (h : chainFrom prev l = true) : verifyFrom prev l = none := by
  induction l generalizing prev with
  | nil => rfl
  | cons t rest ih =>
      unfold chainFrom at h
      rw [Bool.and_eq_true] at h
      unfold verifyFrom
      rw [h.1]
      simp [ih _ h.2]

set_option maxHeartbeats 1000000 in
theorem verifyFrom_some (prev : Nat) (l : List Transaction) (i : Nat)
    (h : verifyFrom prev l = some i) :
    ∃ pre t post, l = pre ++ t :: post ∧ pre.length = i ∧
      chainFrom prev pre = true ∧
      ((txHash t == t.integrity_hash) && (t.prev_hash == lastHash prev pre)) = false := by
  induction l generalizing prev i with
  | nil => simp [verifyFrom] at h
  | cons t rest ih =>
      unfold verifyFrom at h
      by_cases hc : ((txHash t == t.integrity_hash) && (t.prev_hash == prev)) = true
      · rw [hc] at h
        simp only [if_true] at h
        rcases Option.map_eq_some'.mp h with ⟨j, hj, hij⟩
        rcases ih t.integrity_hash j hj with ⟨pre, u, post, hsplit, hlen, hch, hbad⟩
        refine ⟨t :: pre, u, post, by simp [hsplit], by simp [hlen, hij.symm], ?_, ?_⟩
        · unfold chainFrom
          rw [Bool.and_eq_true]
          exact ⟨hc, hch⟩
        · simpa [lastHash] using hbad
      · rw [Bool.not_eq_true] at hc
        rw [hc] at h
        simp only [Bool.false_eq_true, if_false, Option.some.injEq] at h
        refine ⟨[], t, rest, rfl, by simp [h.symm], rfl, ?_⟩
        simpa [lastHash] using hc

theorem chainFrom_linkage (prev : Nat) (l : List Transaction)
    (h : chainFrom prev l = true) :
    (∀ t0 : Transaction, l[0]? = some t0 → t0.prev_hash = prev) ∧
    (∀ (n : Nat) (t0 t1 : Transaction), l[n]? = some t0 → l[n + 1]? = some t1 →
      t1.prev_hash = t0.integrity_hash) ∧
    (∀ (n : Nat) (t : Transaction), l[n]? = some t → txHash t = t.integrity_hash) := by
  induction l generalizing prev with
  | nil => simp
  | cons a l ih =>
      unfold chainFrom at h
      rw [Bool.and_eq_true, Bool.and_eq_true, beq_iff_eq, beq_iff_eq] at h
      obtain ⟨⟨h1, h2⟩, h3⟩ := h
      obtain ⟨ih1, ih2, ih3⟩ := ih a.integrity_hash h3
      refine ⟨?_, ?_, ?_⟩
      · intro t0 ht0
        simp only [List.getElem?_cons_zero, Option.some.injEq] at ht0
        rw [← ht0]
        exact h2
      · intro n t0 t1 ht0 ht1
        cases n with
        | zero =>
            simp only [List.getElem?_cons_zero, Option.some.injEq] at ht0
            simp only [List.getElem?_cons_succ] at ht1
            rw [← ht0]
            exact ih1 t1 ht1
        | succ m =>
            simp only [List.getElem?_cons_succ] at ht0 ht1
            exact ih2 m t0 t1 ht0 ht1
      · intro n t ht
        cases n with
        | zero =>
            simp only [List.getElem?_cons_zero, Option.some.injEq] at ht
            rw [← ht]
            exact h1
        | succ m =>
            simp only [List.getElem?_cons_succ] at ht
            exact ih3 m t ht

theorem upd_owner_id (cid : Nat) (buyer : String) (x : Credit) :
    ((if x.id = cid then { x with owner_id := buyer } else x) : Credit).id = x.id := by
  split <;> rfl

theorem upd_owner_retired (cid : Nat) (buyer : String) (x : Credit) :
    ((if x.id = cid then { x with owner_id := buyer } else x) : Credit).is_retired =
      x.is_retired := by
  split <;> rfl

theorem upd_retire_id (cid : Nat) (x : Credit) :
    ((if x.id = cid then { x with is_retired := true } else x) : Credit).id = x.id := by
  split <;> rfl

theorem mint_ok_eq (dateOk : String → Bool) (s : EngineState) (p b : String) (u : Rat)
    (d : String) (now : Nat) (hu : ¬ u ≤ 0) (hd : dateOk d = true) :
    Mint dateOk s p b u d now =
      .ok ({ id := s.nextCreditId, batch_id := b, producer_id := p, units := u,
             production_date := d,
             integrity_hash := hashCredit s.nextCreditId p b u d,
             is_retired := false, owner_id := p },
           (ledgerAppend s.ledger .mint s.nextCreditId "" p u now).1,
           { credits := s.credits ++
               [{ id := s.nextCreditId, batch_id := b, producer_id := p, units := u,
                  production_date := d,
                  integrity_hash := hashCredit s.nextCreditId p b u d,
                  is_retired := false, owner_id := p }],
             ledger := (ledgerAppend s.ledger .mint s.nextCreditId "" p u now).2,
             nextCreditId := s.nextCreditId + 1 }) := by
  unfold Mint
  rw [if_neg hu, if_neg (by simp [hd])]

theorem purchase_ok_eq (s : EngineState) (cid : Nat) (buyer : String) (now : Nat)
    (c : Credit) (hc : findCredit s cid = some c) (hr : c.is_retired = false)
    (ho : c.owner_id = c.producer_id) :
    PurchaseCredit s cid buyer now =
      .ok ((ledgerAppend s.ledger .transfer cid c.owner_id buyer c.units now).1,
        { s with
          credits := s.credits.map
            (fun x => if x.id = cid then { x with owner_id := buyer } else x),
          ledger := (ledgerAppend s.ledger .transfer cid c.owner_id buyer c.units now).2 }) := by
  unfold PurchaseCredit
  rw [hc]
  simp [hr, ho]

theorem retire_ok_eq (s : EngineState) (cid : Nat) (user : String) (now : Nat)
    (c : Credit) (hc : findCredit s cid = some c) (hr : c.is_retired = false) :
    RetireCredit s cid user now =
      .ok ((ledgerAppend s.ledger .retire cid c.owner_id user c.units now).1,
        { s with
          credits := s.credits.map
            (fun x => if x.id = cid then { x with is_retired := true } else x),
          ledger := (ledgerAppend s.ledger .retire cid c.owner_id user c.units now).2 }) := by
  unfold RetireCredit
  rw [hc]
  simp [hr]

/-- Invariant of every reachable engine state: the ledger is a valid hash
chain with non-decreasing timestamps, credit ids are unique and below the
fresh-id counter, ledger records reference allocated ids, and a credit has
exactly one retire transaction when retired and none otherwise. -/
structure Inv (s : EngineState) : Prop where
  chain : chainFrom genesisHash s.ledger = true
  tsmono : List.Chain' (fun a b : Transaction => a.timestamp ≤ b.timestamp) s.ledger
  creditIds : ∀ c ∈ s.credits, c.id < s.nextCreditId
  ledgerIds : ∀ t ∈ s.ledger, t.credit_id < s.nextCreditId
  idsNodup : (s.credits.map Credit.id).Nodup
  retireCt : ∀ c ∈ s.credits, retireCount s.ledger c.id = if c.is_retired then 1 else 0

theorem inv_initState : Inv initState := by
  constructor <;> simp [initState, chainFrom]

theorem ledgerAppend_fst_cid (l : List Transaction) (ty : TxType) (cid : Nat)
    (fromU toU : String) (units : Rat) (now : Nat) :
    (ledgerAppend l ty cid fromU toU units now).1.credit_id = cid := rfl

theorem ledgerAppend_fst_ty (l : List Transaction) (ty : TxType) (cid : Nat)
    (fromU toU : String) (units : Rat) (now : Nat) :
    (ledgerAppend l ty cid fromU toU units now).1.transaction_type = ty := rfl

theorem inv_applyOp (dateOk : String → Bool) (s : EngineState) (op : Op) (hs : Inv s) :
    Inv (applyOp dateOk s op) := by
  cases op with
  | mintOp p b u d now =>
      by_cases hu : u ≤ 0
      · have he : Mint dateOk s p b u d now = .error .InvalidInput := by
          unfold Mint
          rw [if_pos hu]
        simpa [applyOp, he] using hs
      · by_cases hd : dateOk d = true
        · have hm := mint_ok_eq dateOk s p b u d now hu hd
          simp only [applyOp]
          rw [hm]
          refine ⟨ledgerAppend_chain _ _ _ _ _ _ _ hs.chain,
                  ledgerAppend_tsmono _ _ _ _ _ _ _ hs.tsmono, ?_, ?_, ?_, ?_⟩
          · intro c hc
            rcases List.mem_append.mp hc with h | h
            · exact Nat.lt_succ_of_lt (hs.creditIds c h)
            · simp only [List.mem_singleton] at h
              subst h
              exact Nat.lt_succ_self _
          · intro t ht
            rw [ledgerAppend_snd] at ht
            rcases List.mem_append.mp ht with h | h
            · exact Nat.lt_succ_of_lt (hs.ledgerIds t h)
            · simp only [List.mem_singleton] at h
              subst h
              rw [ledgerAppend_fst_cid]
              exact Nat.lt_succ_self _
          · rw [List.map_append]
            refine List.Nodup.append hs.idsNodup (by simp) ?_
            intro a ha hb
            simp only [List.map_cons, List.map_nil, List.mem_singleton] at hb
            rcases List.mem_map.mp ha with ⟨x, hx, hxa⟩
            have := hs.creditIds x hx
            omega
          · intro c hc
            have h0 : retireCount s.ledger s.nextCreditId = 0 :=
              retireCount_eq_zero _ _ (fun t ht => Nat.ne_of_lt (hs.ledgerIds t ht))
            rcases List.mem_append.mp hc with h | h
            · rw [ledgerAppend_snd, retireCount_append_other]
              · exact hs.retireCt c h
              · left
                rw [ledgerAppend_fst_ty]
                simp
            · simp only [List.mem_singleton] at h
              subst h
              rw [ledgerAppend_snd, retireCount_append_other]
              · simpa using h0
              · left
                rw [ledgerAppend_fst_ty]
                simp
        · have he : Mint dateOk s p b u d now = .error .InvalidInput := by
            unfold Mint
            rw [if_neg hu, if_pos (by simp [hd])]
          simpa [applyOp, he] using hs
  | purchaseOp cid buyer now =>
      cases hfc : findCredit s cid with
      | none =>
          have he : PurchaseCredit s cid buyer now = .error .NotFound := by
            unfold PurchaseCredit
            rw [hfc]
          simpa [applyOp, he] using hs
      | some c =>
          by_cases hr : c.is_retired = true
          · have he : PurchaseCredit s cid buyer now = .error .AlreadyRetired := by
              unfold PurchaseCredit
              rw [hfc]
              simp [hr]
            simpa [applyOp, he] using hs
          · rw [Bool.not_eq_true] at hr
            by_cases ho : c.owner_id = c.producer_id
            · have hm := findCredit_mem s cid c hfc
              have hcid : cid < s.nextCreditId := by
                have := hs.creditIds c hm.1
                omega
              have hp := purchase_ok_eq s cid buyer now c hfc hr ho
              simp only [applyOp]
              rw [hp]
              refine ⟨ledgerAppend_chain _ _ _ _ _ _ _ hs.chain,
                      ledgerAppend_tsmono _ _ _ _ _ _ _ hs.tsmono, ?_, ?_, ?_, ?_⟩
              · intro x hx
                rcases List.mem_map.mp hx with ⟨y, hy, hyx⟩
                rw [← hyx, upd_owner_id]
                exact hs.creditIds y hy
              · intro t ht
                rw [ledgerAppend_snd] at ht
                rcases List.mem_append.mp ht with h | h
                · exact hs.ledgerIds t h
                · simp only [List.mem_singleton] at h
                  subst h
                  rw [ledgerAppend_fst_cid]
                  exact hcid
              · rw [List.map_map]
                have heq : s.credits.map
                    (Credit.id ∘ fun x => if x.id = cid then { x with owner_id := buyer } else x) =
                    s.credits.map Credit.id :=
                  List.map_congr_left (fun a _ => upd_owner_id cid buyer a)
                rw [heq]
                exact hs.idsNodup
              · intro x hx
                rcases List.mem_map.mp hx with ⟨y, hy, hyx⟩
                rw [← hyx, upd_owner_id, upd_owner_retired, ledgerAppend_snd,
                    retireCount_append_other]
                · exact hs.retireCt y hy
                · left
                  rw [ledgerAppend_fst_ty]
                  simp
            · have he : PurchaseCredit s cid buyer now = .error .AlreadySold := by
                unfold PurchaseCredit
                rw [hfc]
                simp [hr, ho]
              simpa [applyOp, he] using hs
  | retireOp cid user now =>
      cases hfc : findCredit s cid with
      | none =>
          have he : RetireCredit s cid user now = .error .NotFound := by
            unfold RetireCredit
            rw [hfc]
          simpa [applyOp, he] using hs
      | some c =>
          by_cases hr : c.is_retired = true
          · have he : RetireCredit s cid user now = .error .AlreadyRetired := by
              unfold RetireCredit
              rw [hfc]
              simp [hr]
            simpa [applyOp, he] using hs
          · rw [Bool.not_eq_true] at hr
            have hm := findCredit_mem s cid c hfc
            have hcid : cid < s.nextCreditId := by
              have := hs.creditIds c hm.1
              omega
            have hre := retire_ok_eq s cid user now c hfc hr
            simp only [applyOp]
            rw [hre]
            refine ⟨ledgerAppend_chain _ _ _ _ _ _ _ hs.chain,
                    ledgerAppend_tsmono _ _ _ _ _ _ _ hs.tsmono, ?_, ?_, ?_, ?_⟩
            · intro x hx
              rcases List.mem_map.mp hx with ⟨y, hy, hyx⟩
              rw [← hyx, upd_retire_id]
              exact hs.creditIds y hy
            · intro t ht
              rw [ledgerAppend_snd] at ht
              rcases List.mem_append.mp ht with h | h
              · exact hs.ledgerIds t h
              · simp only [List.mem_singleton] at h
                subst h
                rw [ledgerAppend_fst_cid]
                exact hcid
            · rw [List.map_map]
              have heq : s.credits.map
                  (Credit.id ∘ fun x => if x.id = cid then { x with is_retired := true } else x) =
                  s.credits.map Credit.id :=
                List.map_congr_left (fun a _ => upd_retire_id cid a)
              rw [heq]
              exact hs.idsNodup
            · intro x hx
              rcases List.mem_map.mp hx with ⟨y, hy, hyx⟩
              by_cases hyid : y.id = cid
              · have hyc : y = c :=
                  List.inj_on_of_nodup_map hs.idsNodup hy hm.1 (by rw [hyid, hm.2])
                subst hyc
                rw [← hyx, if_pos hyid]
                have h0 := hs.retireCt y hy
                rw [hr] at h0
                rw [ledgerAppend_snd, retireCount_append_retire]
                · simpa using h0
                · exact ledgerAppend_fst_ty _ _ _ _ _ _ _
                · rw [ledgerAppend_fst_cid]
                  exact hyid.symm
              · rw [← hyx, if_neg hyid]
                rw [ledgerAppend_snd, retireCount_append_other]
                · exact hs.retireCt y hy
                · right
                  rw [ledgerAppend_fst_cid]
                  exact fun hh => hyid hh.symm

theorem inv_foldl (dateOk : String → Bool) (ops : List Op) (s : EngineState) (hs : Inv s) :
    Inv (ops.foldl (applyOp dateOk) s) := by
  induction ops generalizing s with
  | nil => exact hs
  | cons op ops ih => exact ih _ (inv_applyOp dateOk s op hs)

theorem inv_runOps (dateOk : String → Bool) (ops : List Op) : Inv (runOps dateOk ops) :=
  inv_foldl dateOk ops initState inv_initState

theorem applyOp_ledger_ext (dateOk : String → Bool) (s : EngineState) (op : Op) :
    ∃ ext, (applyOp dateOk s op).ledger = s.ledger ++ ext := by
  cases op with
  | mintOp p b u d now =>
      by_cases hu : u ≤ 0
      · refine ⟨[], ?_⟩
        have he : Mint dateOk s p b u d now = .error .InvalidInput := by
          unfold Mint
          rw [if_pos hu]
        simp [applyOp, he]
      · by_cases hd : dateOk d = true
        · refine ⟨[(ledgerAppend s.ledger .mint s.nextCreditId "" p u now).1], ?_⟩
          simp only [applyOp, mint_ok_eq dateOk s p b u d now hu hd]
          exact ledgerAppend_snd _ _ _ _ _ _ _
        · refine ⟨[], ?_⟩
          have he : Mint dateOk s p b u d now = .error .InvalidInput := by
            unfold Mint
            rw [if_neg hu, if_pos (by simp [hd])]
          simp [applyOp, he]
  | purchaseOp cid buyer now =>
      cases hfc : findCredit s cid with
      | none =>
          refine ⟨[], ?_⟩
          have he : PurchaseCredit s cid buyer now = .error .NotFound := by
            unfold PurchaseCredit
            rw [hfc]
          simp [applyOp, he]
      | some c =>
          by_cases hr : c.is_retired = true
          · refine ⟨[], ?_⟩
            have he : PurchaseCredit s cid buyer now = .error .AlreadyRetired := by
              unfold PurchaseCredit
              rw [hfc]
              simp [hr]
            simp [applyOp, he]
          · rw [Bool.not_eq_true] at hr
            by_cases ho : c.owner_id = c.producer_id
            · refine ⟨[(ledgerAppend s.ledger .transfer cid c.owner_id buyer c.units now).1], ?_⟩
              simp only [applyOp, purchase_ok_eq s cid buyer now c hfc hr ho]
              exact ledgerAppend_snd _ _ _ _ _ _ _
            · refine ⟨[], ?_⟩
              have he : PurchaseCredit s cid buyer now = .error .AlreadySold := by
                unfold PurchaseCredit
                rw [hfc]
                simp [hr, ho]
              simp [applyOp, he]
  | retireOp cid user now =>
      cases hfc : findCredit s cid with
      | none =>
          refine ⟨[], ?_⟩
          have he : RetireCredit s cid user now = .error .NotFound := by
            unfold RetireCredit
            rw [hfc]
          simp [applyOp, he]
      | some c =>
          by_cases hr : c.is_retired = true
          · refine ⟨[], ?_⟩
            have he : RetireCredit s cid user now = .error .AlreadyRetired := by
              unfold RetireCredit
              rw [hfc]
              simp [hr]
            simp [applyOp, he]
          · rw [Bool.not_eq_true] at hr
            refine ⟨[(ledgerAppend s.ledger .retire cid c.owner_id user c.units now).1], ?_⟩
            simp only [applyOp, retire_ok_eq s cid user now c hfc hr]
            exact ledgerAppend_snd _ _ _ _ _ _ _

theorem forall₂_retired_refl (l : List Credit) :
    List.Forall₂ (fun a b : Credit => a.is_retired = true → b.is_retired = true)
      l (l.take l.length) := by
  rw [List.take_length]
  exact List.forall₂_same.mpr (fun x _ h => h)

theorem forall₂_retired_append (l l₂ : List Credit) :
    List.Forall₂ (fun a b : Credit => a.is_retired = true → b.is_retired = true)
      l ((l ++ l₂).take l.length) := by
  rw [List.take_left]
  exact List.forall₂_same.mpr (fun x _ h => h)

theorem forall₂_retired_map (l : List Credit) (f : Credit → Credit)
    (hf : ∀ x, x.is_retired = true → (f x).is_retired = true) :
    List.Forall₂ (fun a b : Credit => a.is_retired = true → b.is_retired = true)
      l ((l.map f).take l.length) := by
  rw [List.take_of_length_le (by simp)]
  exact List.forall₂_map_right_iff.mpr (List.forall₂_same.mpr (fun x _ h => hf x h))

theorem applyOp_retired_monotone (dateOk : String → Bool) (s : EngineState) (op : Op) :
    List.Forall₂ (fun a b : Credit => a.is_retired = true → b.is_retired = true)
      s.credits ((applyOp dateOk s op).credits.take s.credits.length) := by
  cases op with
  | mintOp p b u d now =>
      by_cases hu : u ≤ 0
      · have he : Mint dateOk s p b u d now = .error .InvalidInput := by
          unfold Mint
          rw [if_pos hu]
        simp only [applyOp, he]
        exact forall₂_retired_refl s.credits
      · by_cases hd : dateOk d = true
        · simp only [applyOp, mint_ok_eq dateOk s p b u d now hu hd]
          exact forall₂_retired_append s.credits _
        · have he : Mint dateOk s p b u d now = .error .InvalidInput := by
            unfold Mint
            rw [if_neg hu, if_pos (by simp [hd])]
          simp only [applyOp, he]
          exact forall₂_retired_refl s.credits
  | purchaseOp cid buyer now =>
      cases hfc : findCredit s cid with
      | none =>
          have he : PurchaseCredit s cid buyer now = .error .NotFound := by
            unfold PurchaseCredit
            rw [hfc]
          simp only [applyOp, he]
          exact forall₂_retired_refl s.credits
      | some c =>
          by_cases hr : c.is_retired = true
          · have he : PurchaseCredit s cid buyer now = .error .AlreadyRetired := by
              unfold PurchaseCredit
              rw [hfc]
              simp [hr]
            simp only [applyOp, he]
            exact forall₂_retired_refl s.credits
          · rw [Bool.not_eq_true] at hr
            by_cases ho : c.owner_id = c.producer_id
            · simp only [applyOp, purchase_ok_eq s cid buyer now c hfc hr ho]
              refine forall₂_retired_map s.credits _ (fun x hx => ?_)
              rw [upd_owner_retired]
              exact hx
            · have he : PurchaseCredit s cid buyer now = .error .AlreadySold := by
                unfold PurchaseCredit
                rw [hfc]
                simp [hr, ho]
              simp only [applyOp, he]
              exact forall₂_retired_refl s.credits
  | retireOp cid user now =>
      cases hfc : findCredit s cid with
      | none =>
          have he : RetireCredit s cid user now = .error .NotFound := by
            unfold RetireCredit
            rw [hfc]
          simp only [applyOp, he]
          exact forall₂_retired_refl s.credits
      | some c =>
          by_cases hr : c.is_retired = true
          · have he : RetireCredit s cid user now = .error .AlreadyRetired := by
              unfold RetireCredit
              rw [hfc]
              simp [hr]
            simp only [applyOp, he]
            exact forall₂_retired_refl s.credits
          · rw [Bool.not_eq_true] at hr
            simp only [applyOp, retire_ok_eq s cid user now c hfc hr]
            refine forall₂_retired_map s.credits _ (fun x hx => ?_)
            by_cases hid : x.id = cid
            · rw [if_pos hid]
            · rw [if_neg hid]
              exact hx

theorem runPurchases_sold (s : EngineState) (cid : Nat) (calls : List PCall) (c : Credit)
    (hc : findCredit s cid = some c) (hr : c.is_retired = false)
    (ho : c.owner_id ≠ c.producer_id) :
    (runPurchases s cid calls).2 = s ∧
    ∀ r ∈ (runPurchases s cid calls).1,
      r = (.error .AlreadySold : Except Err Transaction) ∨
      r = (.error .Busy : Except Err Transaction) := by
  induction calls with
  | nil => exact ⟨rfl, by simp [runPurchases]⟩
  | cons call rest ih =>
      have hstep : (purchaseStep cid s call).2 = s ∧
          ((purchaseStep cid s call).1 = (.error .AlreadySold : Except Err Transaction) ∨
           (purchaseStep cid s call).1 = (.error .Busy : Except Err Transaction)) := by
        unfold purchaseStep
        by_cases ha : call.acquired = true
        · have hPC : PurchaseCredit s cid call.buyer call.now = .error .AlreadySold := by
            unfold PurchaseCredit
            rw [hc]
            simp [hr, ho]
          rw [ha]
          simp [hPC]
        · rw [Bool.not_eq_true] at ha
          rw [ha]
          simp
      simp only [runPurchases]
      rw [hstep.1]
      refine ⟨ih.1, ?_⟩
      intro r hrr
      rcases List.mem_cons.mp hrr with h | h
      · rw [h]
        exact hstep.2
      · exact ih.2 r h

theorem purchase_ok_state (s : EngineState) (cid : Nat) (buyer : String) (now : Nat)
    (c : Credit) (hc : findCredit s cid = some c) (hr : c.is_retired = false)
    (ho : c.owner_id = c.producer_id) :
    ∃ s', PurchaseCredit s cid buyer now =
        .ok ((ledgerAppend s.ledger .transfer cid c.owner_id buyer c.units now).1, s') ∧
      findCredit s' cid = some { c with owner_id := buyer } ∧
      s'.ledger = s.ledger ++
        [(ledgerAppend s.ledger .transfer cid c.owner_id buyer c.units now).1] := by
  refine ⟨_, purchase_ok_eq s cid buyer now c hc hr ho, ?_, ledgerAppend_snd _ _ _ _ _ _ _⟩
  unfold findCredit at hc ⊢
  rw [find?_map_update s.credits cid (fun x => { x with owner_id := buyer }) (fun _ => rfl), hc]
  rfl

/- ## Claim theorems -/

/-- C5: for every state of the CreditStore, ComputeOverview returns
total_credits equal to the count of all credits, retired_credits equal to
the count of credits with is_retired true, active_credits equal to total
minus retired — all from the one snapshot it is given — hence
active_credits + retired_credits = total_credits always holds. -/
theorem overview_counts_consistent (s : EngineState) :
    (ComputeOverview s).total_credits = s.credits.length ∧
    (ComputeOverview s).retired_credits =
      (s.credits.filter (fun c => c.is_retired)).length ∧
    (ComputeOverview s).active_credits =
      (ComputeOverview s).total_credits - (ComputeOverview s).retired_credits ∧
    (ComputeOverview s).active_credits + (ComputeOverview s).retired_credits =
      (ComputeOverview s).total_credits := by
  refine ⟨rfl, rfl, rfl, ?_⟩
  have hle := List.length_filter_le (fun c : Credit => c.is_retired) s.credits
  simp only [ComputeOverview]
  omega

/-- C9: a mint form submission with an empty batch id, units, or production
date makes handleMintCredit show the fill-in-all-fields alert and return:
no network request is issued and the form state and credit list are
unchanged. -/
theorem mint_empty_fields_rejected (jsNumber : String → Option Rat) (producerId : String)
    (st : ProducerState) (netOk : Bool) (refreshed : List ProdCredit)
    (h : st.form.batchId = "" ∨ st.form.units = "" ∨ st.form.productionDate = "") :
    handleMintCredit jsNumber producerId st netOk refreshed =
      { alertMsg := some "Please fill in all fields", request := none, stateAfter := st } := by
  unfold handleMintCredit
  rw [if_pos h]

/-- C9 witness at a concrete empty form. -/
theorem mint_empty_fields_rejected_witness :
    handleMintCredit (fun _ => none) "producer"
        { form := { batchId := "", units := "", productionDate := "" }, credits := [] }
        false [] =
      { alertMsg := some "Please fill in all fields", request := none,
        stateAfter := { form := { batchId := "", units := "", productionDate := "" },
                        credits := [] } } :=
  mint_empty_fields_rejected (fun _ => none) "producer"
    { form := { batchId := "", units := "", productionDate := "" }, credits := [] }
    false [] (Or.inl rfl)

/-- C10: a login attempt with an empty username or password, a password
other than "1234", or a username whose lowercased trimmed form is not
producer, buyer, or regulator only shows an alert: handleLogin never
reaches the network call and the stored session is unchanged. -/
theorem login_failure_no_side_effects (u p : String)
    (h : u = "" ∨ p = "" ∨ p ≠ "1234" ∨
      (jsTrim (jsToLower u) ≠ "producer" ∧ jsTrim (jsToLower u) ≠ "buyer" ∧
        jsTrim (jsToLower u) ≠ "regulator")) :
    (∃ msg, handleLogin u p = .alertMsg msg) ∧
    ∀ (prev : Option (String × String)) (b : Bool),
      sessionAfterLogin prev u p b = prev := by
  have halt : ∃ msg, handleLogin u p = .alertMsg msg := by
    simp only [handleLogin]
    split_ifs with h1 h2 h3 h4 h5
    · exact ⟨_, rfl⟩
    · exact ⟨_, rfl⟩
    · push_neg at h1 h2
      rcases h with hh | hh | hh | hh
      · exact absurd hh h1.1
      · exact absurd hh h1.2
      · exact absurd h2 hh
      · exact absurd h3 hh.1
    · push_neg at h1 h2
      rcases h with hh | hh | hh | hh
      · exact absurd hh h1.1
      · exact absurd hh h1.2
      · exact absurd h2 hh
      · exact absurd h4 hh.2.1
    · push_neg at h1 h2
      rcases h with hh | hh | hh | hh
      · exact absurd hh h1.1
      · exact absurd hh h1.2
      · exact absurd h2 hh
      · exact absurd h5 hh.2.2
    · exact ⟨_, rfl⟩
  obtain ⟨msg, hmsg⟩ := halt
  refine ⟨⟨msg, hmsg⟩, ?_⟩
  intro prev b
  unfold sessionAfterLogin
  rw [hmsg]

/-- C10 witness at a concrete rejected username. -/
theorem login_failure_no_side_effects_witness :
    (∃ msg, handleLogin "admin" "1234" = .alertMsg msg) ∧
    ∀ (prev : Option (String × String)) (b : Bool),
      sessionAfterLogin prev "admin" "1234" b = prev :=
  login_failure_no_side_effects "admin" "1234"
    (Or.inr (Or.inr (Or.inr (by decide))))

/-- C8: a login attempt reaches the backend only with password exactly
"1234" and a lowercased trimmed username among producer, buyer, regulator;
the derived role equals that username, and on backend success the role and
username are persisted in the device-local session store. -/
theorem login_static_demo_auth (u p lu r : String)
    (h : handleLogin u p = .attempt lu r) :
    p = "1234" ∧ lu = jsTrim (jsToLower u) ∧
    (lu = "producer" ∨ lu = "buyer" ∨ lu = "regulator") ∧ r = lu ∧
    ∀ prev : Option (String × String),
      sessionAfterLogin prev u p true = some (r, lu) := by
  have hses : ∀ prev : Option (String × String),
      sessionAfterLogin prev u p true = some (r, lu) := by
    intro prev
    unfold sessionAfterLogin
    rw [h]
    rfl
  simp only [handleLogin] at h
  split_ifs at h with h1 h2 h3 h4 h5 <;>
    (injection h with ha hb
     subst ha
     subst hb
     push_neg at h2
     refine ⟨h2, rfl, by tauto, by tauto, hses⟩)

/-- C8 witness at the concrete demo credentials. -/
theorem login_static_demo_auth_witness :
    "1234" = "1234" ∧ "producer" = jsTrim (jsToLower "Producer") ∧
    ("producer" = "producer" ∨ "producer" = "buyer" ∨ "producer" = "regulator") ∧
    "producer" = "producer" ∧
    ∀ prev : Option (String × String),
      sessionAfterLogin prev "Producer" "1234" true = some ("producer", "producer") :=
  login_static_demo_auth "Producer" "1234" "producer" "producer" (by decide)

/-- C7: the purchase-credit endpoint requires the request's expected units
to equal the target credit's units and fails with InvalidInput on any
mismatch, while a matching value passes the guard unchanged; the front
end's executePurchase always sends exactly the units of the credit being
purchased. -/
theorem purchase_units_must_match (s : EngineState) (cid : Nat) (buyer : String)
    (expected : Rat) (now : Nat) (c : Credit)
    (hc : findCredit s cid = some c) (hne : expected ≠ c.units) :
    purchaseCreditEndpoint s cid buyer expected now = .error .InvalidInput ∧
    (∀ (buyerId : String) (fc : FrontCredit),
        (executePurchaseRequest buyerId fc).units = fc.units) ∧
    purchaseCreditEndpoint s cid buyer c.units now = PurchaseCredit s cid buyer now := by
  refine ⟨?_, fun _ _ => rfl, ?_⟩
  · unfold purchaseCreditEndpoint
    rw [hc]
    simp [hne]
  · unfold purchaseCreditEndpoint
    rw [hc]
    simp

/-- C7 witness at the concrete sample state with a mismatched quantity. -/
theorem purchase_units_must_match_witness :
    purchaseCreditEndpoint sampleState 0 "buyer" 50 9 = .error .InvalidInput ∧
    (∀ (buyerId : String) (fc : FrontCredit),
        (executePurchaseRequest buyerId fc).units = fc.units) ∧
    purchaseCreditEndpoint sampleState 0 "buyer" sampleCredit.units 9 =
      PurchaseCredit sampleState 0 "buyer" 9 :=
  purchase_units_must_match sampleState 0 "buyer" 50 9 sampleCredit rfl (by decide)

/-- C3: Mint fails with InvalidInput whenever units are non-positive or the
production date is unparsable; otherwise it returns a Credit owned by the
requesting producer, not retired, carrying the requested units, a fresh id
unused by any existing credit, and an integrity hash over
(id, producer_id, batch_id, units, production_date).  The front end
pre-checks: handleMintCredit issues no request when Number(units) is NaN or
non-positive. -/
theorem mint_validation (dateOk : String → Bool) (s : EngineState)
    (producer batch : String) (units : Rat) (date : String) (now : Nat)
    (hu : 0 < units) (hd : dateOk date = true)
    (hfresh : ∀ x ∈ s.credits, x.id < s.nextCreditId) :
    (∀ (u' : Rat) (d' : String), u' ≤ 0 ∨ dateOk d' = false →
        Mint dateOk s producer batch u' d' now = .error .InvalidInput) ∧
    (∃ c tx s', Mint dateOk s producer batch units date now = .ok (c, tx, s') ∧
        c.owner_id = producer ∧ c.is_retired = false ∧ c.units = units ∧
        c.id = s.nextCreditId ∧ (∀ x ∈ s.credits, x.id ≠ c.id) ∧
        c.integrity_hash = hashCredit c.id producer batch units date) ∧
    (∀ (jsNumber : String → Option Rat) (pid : String) (st : ProducerState)
        (netOk : Bool) (refreshed : List ProdCredit),
        (jsNumber st.form.units = none ∨
          ∃ u, jsNumber st.form.units = some u ∧ u ≤ 0) →
        (handleMintCredit jsNumber pid st netOk refreshed).request = none) := by
  refine ⟨?_, ?_, ?_⟩
  · intro u' d' h
    unfold Mint
    by_cases hu' : u' ≤ 0
    · rw [if_pos hu']
    · rcases h with h | h
      · exact absurd h hu'
      · rw [if_neg hu', if_pos (by simp [h])]
  · rw [mint_ok_eq dateOk s producer batch units date now (not_le.mpr hu) hd]
    exact ⟨_, _, _, rfl, rfl, rfl, rfl, rfl,
      fun x hx => Nat.ne_of_lt (hfresh x hx), rfl⟩
  · intro jsNumber pid st netOk refreshed h
    unfold handleMintCredit
    by_cases h1 : st.form.batchId = "" ∨ st.form.units = "" ∨ st.form.productionDate = ""
    · rw [if_pos h1]
    · rw [if_neg h1]
      rcases h with h | ⟨uu, huu, hle⟩
      · rw [h]
      · rw [huu]
        simp only [if_pos hle]

/-- C3 witness at concrete valid and invalid mint inputs. -/
theorem mint_validation_witness :
    (∀ (u' : Rat) (d' : String), u' ≤ 0 ∨ (fun _ => true) d' = false →
        Mint (fun _ => true) initState "producer" "B1" u' d' 3 = .error .InvalidInput) ∧
    (∃ c tx s', Mint (fun _ => true) initState "producer" "B1" 100 "2024-01-01" 3 =
        .ok (c, tx, s') ∧
        c.owner_id = "producer" ∧ c.is_retired = false ∧ c.units = 100 ∧
        c.id = initState.nextCreditId ∧ (∀ x ∈ initState.credits, x.id ≠ c.id) ∧
        c.integrity_hash = hashCredit c.id "producer" "B1" 100 "2024-01-01") ∧
    (∀ (jsNumber : String → Option Rat) (pid : String) (st : ProducerState)
        (netOk : Bool) (refreshed : List ProdCredit),
        (jsNumber st.form.units = none ∨
          ∃ u, jsNumber st.form.units = some u ∧ u ≤ 0) →
        (handleMintCredit jsNumber pid st netOk refreshed).request = none) :=
  mint_validation (fun _ => true) initState "producer" "B1" 100 "2024-01-01" 3
    (by decide) rfl (by simp [initState])

/-- C2: in every state reachable by mint/purchase/retire operations the
ledger is a valid hash chain: the first record carries the genesis value,
each later record's prev_hash equals the previous record's integrity hash,
every operation only appends to the ledger (no record is mutated or
deleted), and VerifyChain reports no break; on an arbitrary (possibly
tampered) ledger a VerifyChain failure returns the index of the first
broken link, every earlier link being intact. -/
theorem ledger_chain_integrity (dateOk : String → Bool) (ops : List Op) :
    chainFrom genesisHash (runOps dateOk ops).ledger = true ∧
    (∀ t0 : Transaction, (runOps dateOk ops).ledger[0]? = some t0 →
        t0.prev_hash = genesisHash) ∧
    (∀ (n : Nat) (t0 t1 : Transaction),
        (runOps dateOk ops).ledger[n]? = some t0 →
        (runOps dateOk ops).ledger[n + 1]? = some t1 →
        t1.prev_hash = t0.integrity_hash) ∧
    (∀ (s : EngineState) (op : Op),
        ∃ ext, (applyOp dateOk s op).ledger = s.ledger ++ ext) ∧
    VerifyChain (runOps dateOk ops).ledger = none ∧
    (∀ (l : List Transaction) (i : Nat), VerifyChain l = some i →
        ∃ pre t post, l = pre ++ t :: post ∧ pre.length = i ∧
          chainFrom genesisHash pre = true ∧
          ((txHash t == t.integrity_hash) &&
            (t.prev_hash == lastHash genesisHash pre)) = false) := by
  have hinv := inv_runOps dateOk ops
  have hlink := chainFrom_linkage genesisHash _ hinv.chain
  exact ⟨hinv.chain, hlink.1, hlink.2.1, applyOp_ledger_ext dateOk,
    verifyFrom_eq_none _ _ hinv.chain, fun l i h => verifyFrom_some _ l i h⟩

/-- C2 witness: an intact run verifies cleanly, and a concrete tampered
record is localized at index zero. -/
theorem ledger_chain_integrity_witness :
    VerifyChain (runOps (fun _ => true)
      [Op.mintOp "p" "B1" 100 "2024-01-01" 1]).ledger = none ∧
    (∃ pre t post, [badTx] = pre ++ t :: post ∧ pre.length = 0 ∧
      chainFrom genesisHash pre = true ∧
      ((txHash t == t.integrity_hash) &&
        (t.prev_hash == lastHash genesisHash pre)) = false) :=
  ⟨(ledger_chain_integrity (fun _ => true)
      [Op.mintOp "p" "B1" 100 "2024-01-01" 1]).2.2.2.2.1,
   (ledger_chain_integrity (fun _ => true) []).2.2.2.2.2 [badTx] 0 (by decide)⟩

/-- C6: the transaction sequence served to the regulator is the reverse of
append order (newest first); along it timestamps are non-increasing, so
newest-first append order coincides with ordering by timestamp with ties
broken by append order; consequently the front end's stable re-sort by
timestamp alone, descending, returns the served list unchanged. -/
theorem transactions_newest_first (dateOk : String → Bool) (ops : List Op) :
    ListAllNewestFirst (runOps dateOk ops) = (runOps dateOk ops).ledger.reverse ∧
    List.Pairwise (fun a b : Transaction => b.timestamp ≤ a.timestamp)
      (ListAllNewestFirst (runOps dateOk ops)) ∧
    fetchTransactionsSort (ListAllNewestFirst (runOps dateOk ops)) =
      ListAllNewestFirst (runOps dateOk ops) := by
  have hinv := inv_runOps dateOk ops
  have hpw : List.Pairwise (fun a b : Transaction => a.timestamp ≤ b.timestamp)
      (runOps dateOk ops).ledger := by
    haveI : IsTrans Transaction (fun a b : Transaction => a.timestamp ≤ b.timestamp) :=
      ⟨fun _ _ _ hab hbc => le_trans hab hbc⟩
    exact List.chain'_iff_pairwise.mp hinv.tsmono
  have hrev : List.Pairwise (fun a b : Transaction => b.timestamp ≤ a.timestamp)
      (runOps dateOk ops).ledger.reverse := by
    rw [List.pairwise_reverse]
    exact hpw
  exact ⟨rfl, hrev, List.Sorted.insertionSort_eq hrev⟩

/-- C1: N concurrent PurchaseCredit calls on one unsold, unretired credit,
serialized by the per-credit lock (callers that time out fail Busy and
touch nothing; at least one caller acquires the free lock): exactly one
call succeeds, every other call fails with AlreadySold or Busy, and exactly
one transfer transaction for that credit is appended to the ledger. -/
theorem concurrent_purchase_exactly_one (s : EngineState) (cid : Nat)
    (calls : List PCall) (c : Credit)
    (hc : findCredit s cid = some c) (hr : c.is_retired = false)
    (ho : c.owner_id = c.producer_id)
    (hbuyers : ∀ call ∈ calls, call.buyer ≠ c.producer_id)
    (hacq : ∃ call ∈ calls, call.acquired = true) :
    (runPurchases s cid calls).1.countP exceptIsOk = 1 ∧
    (∀ r ∈ (runPurchases s cid calls).1,
        exceptIsOk r = true ∨ r = (.error .AlreadySold : Except Err Transaction) ∨
        r = (.error .Busy : Except Err Transaction)) ∧
    transferCount (runPurchases s cid calls).2.ledger cid =
      transferCount s.ledger cid + 1 := by
  induction calls with
  | nil => simp at hacq
  | cons call rest ih =>
      by_cases hA : call.acquired = true
      · obtain ⟨s1, hPC, hfind1, hled1⟩ :=
          purchase_ok_state s cid call.buyer call.now c hc hr ho
        have hstep : purchaseStep cid s call =
            (.ok (ledgerAppend s.ledger .transfer cid c.owner_id call.buyer
              c.units call.now).1, s1) := by
          unfold purchaseStep
          rw [hA]
          simp [hPC]
        have hstep1 : (purchaseStep cid s call).1 =
            .ok (ledgerAppend s.ledger .transfer cid c.owner_id call.buyer
              c.units call.now).1 := by
          rw [hstep]
        have hstep2 : (purchaseStep cid s call).2 = s1 := by
          rw [hstep]
        have hne : ({ c with owner_id := call.buyer } : Credit).owner_id ≠
            ({ c with owner_id := call.buyer } : Credit).producer_id :=
          hbuyers call (List.mem_cons_self call rest)
        have hsold := runPurchases_sold s1 cid rest
          { c with owner_id := call.buyer } hfind1 hr hne
        simp only [runPurchases]
        rw [hstep1, hstep2]
        refine ⟨?_, ?_, ?_⟩
        · rw [List.countP_cons]
          have h0 : (runPurchases s1 cid rest).1.countP exceptIsOk = 0 := by
            rw [List.countP_eq_zero]
            intro r hrr
            rcases hsold.2 r hrr with h | h <;> simp [h, exceptIsOk]
          rw [h0]
          rfl
        · intro r hrr
          rcases List.mem_cons.mp hrr with h | h
          · left
            rw [h]
            rfl
          · rcases hsold.2 r h with h' | h'
            · exact Or.inr (Or.inl h')
            · exact Or.inr (Or.inr h')
        · rw [hsold.1, hled1]
          exact transferCount_append_transfer s.ledger _ cid
            (ledgerAppend_fst_ty _ _ _ _ _ _ _) (ledgerAppend_fst_cid _ _ _ _ _ _ _)
      · have hA' : call.acquired = false := by
          rw [Bool.not_eq_true] at hA
          exact hA
        have hstep : purchaseStep cid s call = (.error .Busy, s) := by
          unfold purchaseStep
          rw [hA']
          simp
        have hstep1 : (purchaseStep cid s call).1 = (.error .Busy : Except Err Transaction) := by
          rw [hstep]
        have hstep2 : (purchaseStep cid s call).2 = s := by
          rw [hstep]
        have hacq' : ∃ call' ∈ rest, call'.acquired = true := by
          rcases hacq with ⟨call', hmem, hacqq⟩
          rcases List.mem_cons.mp hmem with h | h
          · subst h
            rw [hA'] at hacqq
            exact absurd hacqq (by simp)
          · exact ⟨call', h, hacqq⟩
        have hbuyers' : ∀ call' ∈ rest, call'.buyer ≠ c.producer_id :=
          fun call' hm => hbuyers call' (List.mem_cons_of_mem _ hm)
        obtain ⟨ih1, ih2, ih3⟩ := ih hbuyers' hacq'
        simp only [runPurchases]
        rw [hstep1, hstep2]
        refine ⟨?_, ?_, ?_⟩
        · rw [List.countP_cons, ih1]
          rfl
        · intro r hrr
          rcases List.mem_cons.mp hrr with h | h
          · right
            right
            exact h
          · exact ih2 r h
        · exact ih3

/-- C1 witness: three concurrent callers on the sample credit, two of whom
acquire the lock and one of whom times out. -/
theorem concurrent_purchase_exactly_one_witness :
    (runPurchases sampleState 0 sampleCalls).1.countP exceptIsOk = 1 ∧
    (∀ r ∈ (runPurchases sampleState 0 sampleCalls).1,
        exceptIsOk r = true ∨ r = (.error .AlreadySold : Except Err Transaction) ∨
        r = (.error .Busy : Except Err Transaction)) ∧
    transferCount (runPurchases sampleState 0 sampleCalls).2.ledger 0 =
      transferCount sampleState.ledger 0 + 1 :=
  concurrent_purchase_exactly_one sampleState 0 sampleCalls sampleCredit
    rfl rfl rfl (by decide) (by decide)

/-- C4: on a credit not yet retired (and with no retire record yet, as in
every reachable state) the first RetireCredit call succeeds, every
subsequent RetireCredit call on the same credit fails with AlreadyRetired
rather than being silently ignored, the ledger then holds exactly one
retire transaction for that credit, and no operation ever reverts
is_retired from true to false. -/
theorem retire_exactly_once (s : EngineState) (cid : Nat) (user : String) (now : Nat)
    (c : Credit) (hc : findCredit s cid = some c) (hr : c.is_retired = false)
    (hcnt : retireCount s.ledger cid = 0) :
    (∃ tx s', RetireCredit s cid user now = .ok (tx, s') ∧
      tx.transaction_type = TxType.retire ∧ tx.credit_id = cid ∧
      retireCount s'.ledger cid = 1 ∧
      (∀ (user' : String) (now' : Nat),
        RetireCredit s' cid user' now' = .error .AlreadyRetired)) ∧
    (∀ (dateOk : String → Bool) (s0 : EngineState) (op : Op),
      List.Forall₂ (fun a b : Credit => a.is_retired = true → b.is_retired = true)
        s0.credits ((applyOp dateOk s0 op).credits.take s0.credits.length)) := by
  refine ⟨?_, applyOp_retired_monotone⟩
  refine ⟨_, _, retire_ok_eq s cid user now c hc hr,
    ledgerAppend_fst_ty _ _ _ _ _ _ _, ledgerAppend_fst_cid _ _ _ _ _ _ _, ?_, ?_⟩
  · rw [ledgerAppend_snd,
      retireCount_append_retire s.ledger _ cid (ledgerAppend_fst_ty _ _ _ _ _ _ _)
        (ledgerAppend_fst_cid _ _ _ _ _ _ _), hcnt]
  · intro user' now'
    have hfind : findCredit
        { s with
          credits := s.credits.map
            (fun x => if x.id = cid then { x with is_retired := true } else x),
          ledger := (ledgerAppend s.ledger .retire cid c.owner_id user c.units now).2 }
        cid = some { c with is_retired := true } := by
      unfold findCredit at hc ⊢
      rw [find?_map_update s.credits cid (fun x => { x with is_retired := true })
        (fun _ => rfl), hc]
      rfl
    unfold RetireCredit
    rw [hfind]
    rfl

/-- C4 witness: retiring the sample credit once succeeds and a second
attempt fails with AlreadyRetired. -/
theorem retire_exactly_once_witness :
    (∃ tx s', RetireCredit sampleState 0 "producer" 4 = .ok (tx, s') ∧
      tx.transaction_type = TxType.retire ∧ tx.credit_id = 0 ∧
      retireCount s'.ledger 0 = 1 ∧
      (∀ (user' : String) (now' : Nat),
        RetireCredit s' 0 user' now' = .error .AlreadyRetired)) ∧
    (∀ (dateOk : String → Bool) (s0 : EngineState) (op : Op),
      List.Forall₂ (fun a b : Credit => a.is_retired = true → b.is_retired = true)
        s0.credits ((applyOp dateOk s0 op).credits.take s0.credits.length)) :=
  retire_exactly_once sampleState 0 "producer" 4 sampleCredit rfl rfl (by decide)

end GreenLedger
